import Mathlib

/-!
Shallow embedding of the rinq-go session catalog and command runtime core.

The definitions below are translated from the Go sources:
* `src/rinq/internal/localsession/catalog.go` (local catalog),
* `src/rinq/internal/remotesession/catalog.go` (remote catalog),
* `src/rinq/internal/attrmeta/repr.go` (attribute textual forms),
* the AMQP command server dispatch loop (`commandamqp` package).

Go maps are modelled as association lists (`alookup`/`aset`); the Go
zero-value returned by a map read of a missing key is modelled with
explicit default values.  `uint32` counters (`rev`, `seq`) are modelled
as `Nat` reduced mod `2^32` at each increment, exactly where the Go
code performs `uint32` arithmetic.  The `done` channel of the local
catalog is modelled as a `closed` flag (the code only ever asks whether
the channel is closed).  Network calls (`client.Fetch`, `client.Update`)
are passed in as an explicit `rpc` argument, so the catalog logic is a
pure function of the state and of the remote peer's answer.
-/

/-- Modulus of Go `uint32` arithmetic (`ident.Revision` and the catalog
message counter `seq` are `uint32`). -/
def u32size : Nat := 4294967296

/-- `ident.PeerID`: (clock, rand) pair. -/
structure PeerID where
  clock : Nat
  rand : Nat
deriving DecidableEq, Repr

/-- `ident.SessionID`: peer plus session sequence number. -/
structure SessionID where
  peer : PeerID
  seq : Nat
deriving DecidableEq, Repr

/-- `ident.Ref`: a session id at a specific revision. -/
structure Ref where
  id : SessionID
  rev : Nat
deriving DecidableEq, Repr

/-- `ident.MessageID`: a ref plus per-revision message sequence number. -/
structure MessageID where
  ref : Ref
  seq : Nat
deriving DecidableEq, Repr

/-- `ident.SessionID.At`. -/
def SessionID.At (id : SessionID) (rev : Nat) : Ref := ⟨id, rev⟩

/-- `ident.Ref.Message`. -/
def Ref.Message (r : Ref) (seq : Nat) : MessageID := ⟨r, seq⟩

/-- `rinq.Attr`: key, value and the frozen flag. -/
structure Attr where
  key : String
  value : String
  isFrozen : Bool
deriving DecidableEq, Repr

/-- Go zero value of `rinq.Attr`. -/
def Attr.zero : Attr := ⟨"", "", false⟩

/-- `attrmeta.Attr`: a `rinq.Attr` plus the revisions at which it was
created and last updated. -/
structure AttrMeta where
  attr : Attr
  createdAt : Nat
  updatedAt : Nat
deriving DecidableEq, Repr

/-- Go zero value of `attrmeta.Attr`. -/
def AttrMeta.zero : AttrMeta := ⟨Attr.zero, 0, 0⟩

/-- Association-list model of a Go `map[string]α`. -/
def alookup {α : Type} : List (String × α) → String → Option α
  | [], _ => none
  | (k, v) :: rest, key => if k = key then some v else alookup rest key

/-- Association-list model of Go map assignment `m[key] = v`. -/
def aset {α : Type} : List (String × α) → String → α → List (String × α)
  | [], key, v => [(key, v)]
  | (k, w) :: rest, key, v =>
    if k = key then (key, v) :: rest else (k, w) :: aset rest key v

/-- `attrmeta.Table`: map from attribute key to `attrmeta.Attr`. -/
abbrev Table := List (String × AttrMeta)

/-- `attrmeta.NamespacedTable`: map from namespace to `attrmeta.Table`. -/
abbrev NamespacedTable := List (String × Table)

/-- `attrmeta.Table.Clone` copies every entry into a fresh map; in a pure
value model the copy is the value itself. -/
def Table.Clone (t : Table) : Table := t

/-- Modelled from the spec: `attrmeta.NamespacedTable.CloneAndReplace` is
declared by its caller in `localsession/catalog.go` but its body is not
under `src/`.  Per the spec's copy-on-write rule it returns a copy of the
outer map in which the `ns` sub-table is replaced by `sub`. -/
def NamespacedTable.CloneAndReplace (t : NamespacedTable) (ns : String) (sub : Table) :
    NamespacedTable :=
  aset t ns sub

deriving instance DecidableEq for Except

/-- The four domain errors of `rinq` relevant to the catalogs. -/
inductive RinqError where
  | NotFound (id : SessionID)
  | StaleUpdate (ref : Ref)
  | StaleFetch (ref : Ref)
  | FrozenAttributes (ref : Ref)
deriving DecidableEq, Repr

/-- `localsession.catalog` state: current ref, attribute table,
per-revision message counter and the `done` channel modelled as a
`closed` flag. -/
structure Catalog where
  ref : Ref
  attrs : NamespacedTable
  seq : Nat
  closed : Bool
deriving DecidableEq, Repr

/-- `localsession.NewCatalog`. -/
def NewCatalog (id : SessionID) : Catalog :=
  { ref := id.At 0, attrs := [], seq := 0, closed := false }

/-- `catalog.NextMessageID`: increments `seq` (a `uint32`) and returns a
message id minted from the current ref, plus the attribute snapshot. -/
def Catalog.NextMessageID (c : Catalog) : Catalog × MessageID × NamespacedTable :=
  let seq2 := (c.seq + 1) % u32size
  ({ c with seq := seq2 }, c.ref.Message seq2, c.attrs)

/-- The `for _, attr := range attrs` loop of `catalog.TryUpdate`
(catalog.go lines 167-193).  Returns the updated clone of the namespace
sub-table together with the `hasChanged` flag, or an error when an
incoming attribute differs from an existing frozen entry. -/
def updateLoop (nextRev : Nat) : Table → List Attr → Except Unit (Table × Bool)
  | t, [] => .ok (t, false)
  | t, a :: rest =>
    let entry := (alookup t a.key).getD AttrMeta.zero
    let wasPresent := (alookup t a.key).isSome
    if a.value = entry.attr.value ∧ a.isFrozen = entry.attr.isFrozen then
      updateLoop nextRev t rest
    else if entry.attr.isFrozen then
      .error ()
    else
      let entry2 : AttrMeta :=
        { attr := a
          updatedAt := nextRev
          createdAt := if wasPresent then entry.createdAt else nextRev }
      match updateLoop nextRev (aset t a.key entry2) rest with
      | .error e => .error e
      | .ok (t2, _) => .ok (t2, true)

/-- `catalog.TryUpdate` (catalog.go lines 144-208).  The `diff` buffer is
write-only logging output and is omitted; its contents are modelled by
`WriteDiff` below.  Returns the catalog state after the call plus either
the new head ref or the error. -/
def Catalog.TryUpdate (c : Catalog) (ref : Ref) (ns : String) (attrs : List Attr) :
    Catalog × Except RinqError Ref :=
  if c.closed then
    (c, .error (.NotFound c.ref.id))
  else if ref ≠ c.ref then
    (c, .error (.StaleUpdate ref))
  else
    let nextRev := (ref.rev + 1) % u32size
    let nextAttrs := Table.Clone ((alookup c.attrs ns).getD [])
    match updateLoop nextRev nextAttrs attrs with
    | .error _ => (c, .error (.FrozenAttributes ref))
    | .ok (t2, hasChanged) =>
      let newRef : Ref := { c.ref with rev := nextRev }
      let attrs2 :=
        if hasChanged then NamespacedTable.CloneAndReplace c.attrs ns t2 else c.attrs
      ({ ref := newRef, attrs := attrs2, seq := 0, closed := c.closed }, .ok newRef)

/-- `attrmeta.Write` (repr.go lines 42-59). -/
def Write (a : AttrMeta) : String :=
  if a.attr.value = "" then
    (if a.attr.isFrozen then "!" else "-") ++ a.attr.key
  else
    a.attr.key ++ (if a.attr.isFrozen then "@" else "=") ++ a.attr.value

/-- `attrmeta.WriteDiff` (repr.go lines 11-28). -/
def WriteDiff (a : AttrMeta) : String :=
  if a.attr.value = "" then
    Write a
  else
    (if a.createdAt = a.updatedAt then "+" else "") ++
      (a.attr.key ++ (if a.attr.isFrozen then "@" else "=") ++ a.attr.value)

/-- `remotesession.cachedAttr`: an `attrmeta.Attr` plus the revision at
which it was fetched. -/
structure cachedAttr where
  attr : AttrMeta
  fetchedAt : Nat
deriving DecidableEq, Repr

/-- Go zero value of `remotesession.cachedAttr`. -/
def cachedAttr.zero : cachedAttr := ⟨AttrMeta.zero, 0⟩

/-- `remotesession.attrNamespaceCache`: key to cached attribute.  `none`
for the whole map models a Go nil map (reads yield the zero value,
writes panic). -/
abbrev attrNamespaceCache := List (String × cachedAttr)

/-- `remotesession.attrTableCache`: namespace to `attrNamespaceCache`. -/
abbrev attrTableCache := List (String × attrNamespaceCache)

/-- `remotesession.catalog` state. -/
structure RemoteCatalog where
  id : SessionID
  highestRev : Nat
  cache : attrTableCache
  isClosed : Bool
deriving DecidableEq, Repr

/-- `remotesession.newCatalog`. -/
def newRemoteCatalog (id : SessionID) : RemoteCatalog :=
  { id := id, highestRev := 0, cache := [], isClosed := false }

/-- `rinq.IsNotFound` restricted to the error kinds modelled here. -/
def isNotFound : RinqError → Bool
  | .NotFound _ => true
  | _ => false

/-- `catalog.updateState` (remotesession/catalog.go lines 308-316). -/
def RemoteCatalog.updateState (c : RemoteCatalog) (rev : Nat) (err : Option RinqError) :
    RemoteCatalog :=
  match err with
  | some e => if isNotFound e then { c with isClosed := true } else c
  | none => if rev > c.highestRev then { c with highestRev := rev } else c

/-- The `for _, key := range keys` loop of `catalog.fetchLocal`
(remotesession/catalog.go lines 274-299).  The error case models the
early `StaleFetchError` return. -/
def fetchLocalLoop (cache : attrNamespaceCache) (rev : Nat) :
    List String → Except Unit (List Attr × List String)
  | [] => .ok ([], [])
  | key :: rest =>
    match alookup cache key with
    | some entry =>
      if entry.attr.createdAt > rev then
        fetchLocalLoop cache rev rest
      else if entry.attr.updatedAt > rev then
        .error ()
      else if entry.attr.attr.isFrozen ∨ rev ≤ entry.fetchedAt then
        match fetchLocalLoop cache rev rest with
        | .error e => .error e
        | .ok (s, u) => .ok (entry.attr.attr :: s, u)
      else
        match fetchLocalLoop cache rev rest with
        | .error e => .error e
        | .ok (s, u) => .ok (s, key :: u)
    | none =>
      match fetchLocalLoop cache rev rest with
      | .error e => .error e
      | .ok (s, u) => .ok (s, key :: u)

/-- `catalog.fetchLocal` (remotesession/catalog.go lines 256-306).
Reading `c.cache[ns]` on a missing namespace yields the nil map, whose
reads behave as the empty map. -/
def RemoteCatalog.fetchLocal (c : RemoteCatalog) (rev : Nat) (ns : String) (keys : List String) :
    Except RinqError (List Attr × List String) :=
  let cache := (alookup c.cache ns).getD []
  match fetchLocalLoop cache rev keys with
  | .error _ => .error (.StaleFetch (c.id.At rev))
  | .ok (solved, unsolved) =>
    if unsolved.length > 0 ∧ c.isClosed then .error (.NotFound c.id)
    else .ok (solved, unsolved)

/-- The merge loop of `catalog.Fetch` (remotesession/catalog.go lines
108-139).  Carries the namespace cache (`none` = nil map, allocated on
first write), the `isStaleFetch` flag and the accumulated solved
attributes. -/
def mergeLoop (rev fetchedRev : Nat) :
    List AttrMeta → Option attrNamespaceCache → Bool → List Attr →
    Option attrNamespaceCache × Bool × List Attr
  | [], cache, isStale, solved => (cache, isStale, solved)
  | m :: rest, cache, isStale, solved =>
    let entry := (alookup (cache.getD []) m.attr.key).getD cachedAttr.zero
    let cache2 :=
      if fetchedRev > entry.fetchedAt then
        some (aset (cache.getD []) m.attr.key ⟨m, fetchedRev⟩)
      else cache
    if isStale then
      mergeLoop rev fetchedRev rest cache2 true solved
    else if m.createdAt > rev then
      mergeLoop rev fetchedRev rest cache2 isStale solved
    else if m.updatedAt > rev then
      mergeLoop rev fetchedRev rest cache2 true solved
    else
      mergeLoop rev fetchedRev rest cache2 isStale (solved ++ [m.attr])

/-- `catalog.Fetch` (remotesession/catalog.go lines 77-150).  The remote
call `client.Fetch` is the `rpc` argument: it receives the unsolved keys
and yields the remote head revision and the fetched attributes, or an
error.  Returns the catalog state after the call plus the result. -/
def RemoteCatalog.Fetch (c : RemoteCatalog) (rev : Nat) (ns : String) (keys : List String)
    (rpc : List String → Except RinqError (Nat × List AttrMeta)) :
    RemoteCatalog × Except RinqError (List Attr) :=
  match c.fetchLocal rev ns keys with
  | .error e => (c, .error e)
  | .ok (solvedAttrs, unsolvedKeys) =>
    if unsolvedKeys.length = 0 then (c, .ok solvedAttrs)
    else
      match rpc unsolvedKeys with
      | .error e => (c.updateState 0 (some e), .error e)
      | .ok (fetchedRev, fetchedAttrs) =>
        let c1 := c.updateState fetchedRev none
        if fetchedAttrs.length = 0 then (c1, .ok solvedAttrs)
        else
          let cache0 := alookup c1.cache ns
          match mergeLoop rev fetchedRev fetchedAttrs cache0 false solvedAttrs with
          | (cache, isStale, solved) =>
            let c2 :=
              match cache with
              | some t => { c1 with cache := aset c1.cache ns t }
              | none => c1
            if isStale then (c2, .error (.StaleFetch (c2.id.At rev)))
            else (c2, .ok solved)

/-- The filtering loop of `catalog.TryUpdate` (remotesession/catalog.go
lines 178-194).  The error case models the `FrozenAttributesError`
return. -/
def filterLoop (cache : attrNamespaceCache) (rev : Nat) :
    List Attr → Except Unit (List Attr)
  | [] => .ok []
  | a :: rest =>
    match alookup cache a.key with
    | some entry =>
      if entry.attr.attr.isFrozen then
        if a = entry.attr.attr then filterLoop cache rev rest
        else .error ()
      else if entry.fetchedAt = rev ∧ a = entry.attr.attr then
        filterLoop cache rev rest
      else
        match filterLoop cache rev rest with
        | .error e => .error e
        | .ok u => .ok (a :: u)
    | none =>
      match filterLoop cache rev rest with
      | .error e => .error e
      | .ok u => .ok (a :: u)

/-- The post-RPC merge loop of `catalog.TryUpdate` (remotesession/
catalog.go lines 211-216).  The writes go to the namespace cache map
captured before the RPC; when that map is the Go nil map, the write is a
runtime panic ("assignment to entry in nil map"), modelled as `none`. -/
def rUpdateMergeLoop (updatedRev : Nat) :
    List AttrMeta → Option attrNamespaceCache → Option (Option attrNamespaceCache)
  | [], cache => some cache
  | m :: rest, cache =>
    let entry := (alookup (cache.getD []) m.attr.key).getD cachedAttr.zero
    if updatedRev > entry.fetchedAt then
      match cache with
      | none => none
      | some t => rUpdateMergeLoop updatedRev rest (some (aset t m.attr.key ⟨m, updatedRev⟩))
    else
      rUpdateMergeLoop updatedRev rest cache

/-- `catalog.TryUpdate` of the remote catalog (remotesession/catalog.go
lines 152-222).  The remote call `client.Update` is the `rpc` argument:
it receives the filtered attributes and yields the new revision and the
attribute metadata returned by the owning peer.  The overall `none`
result models the Go runtime panic of the merge loop; otherwise the
catalog state after the call and the result are returned. -/
def RemoteCatalog.TryUpdate (c : RemoteCatalog) (rev : Nat) (ns : String) (attrs : List Attr)
    (rpc : List Attr → Except RinqError (Nat × List AttrMeta)) :
    Option (RemoteCatalog × Except RinqError Ref) :=
  if c.isClosed then some (c, .error (.NotFound c.id))
  else
    let ref := c.id.At rev
    if c.highestRev > rev then some (c, .error (.StaleUpdate ref))
    else
      let cache0 := alookup c.cache ns
      match filterLoop (cache0.getD []) rev attrs with
      | .error _ => some (c, .error (.FrozenAttributes ref))
      | .ok updateAttrs =>
        match rpc updateAttrs with
        | .error e => some (c.updateState 0 (some e), .error e)
        | .ok (updatedRev, returnedAttrs) =>
          let c1 := c.updateState updatedRev none
          match rUpdateMergeLoop updatedRev returnedAttrs cache0 with
          | none => none
          | some cache =>
            let c2 :=
              match cache with
              | some t => { c1 with cache := aset c1.cache ns t }
              | none => c1
            some (c2, .ok (c2.id.At c2.highestRev))

/-- The three AMQP exchanges plus the unexpected case. -/
inductive Exchange where
  | balanced
  | multicast
  | unicast
  | other (name : String)
deriving DecidableEq, Repr

/-- An inbound AMQP delivery as seen by the command server:
`messageID` is the result of `ParseMessageID` on the correlation field
(`none` = malformed), `namespaceHeader` is the `namespace` header when
present and of string type. -/
structure Delivery where
  messageID : Option MessageID
  exchange : Exchange
  routingKey : String
  namespaceHeader : Option String
deriving DecidableEq, Repr

/-- Outcome of the server's dispatch state machine, up to handler
invocation: the broker-visible acknowledgement, or `invoke ns` when a
handler registered for `ns` is handed the request (the later ack/reject
for an invoked handler depends on the responder state and is outside
these claims). -/
inductive AckAction where
  | rejectRequeue
  | rejectNoRequeue
  | invoke (ns : String)
deriving DecidableEq, Repr

/-- `server.handle` of the commandamqp package, up to handler
resolution: a nil handler is rejected with requeue (`msg.Reject(true)`),
otherwise the handler is invoked. -/
def serverHandle (handlers : List String) (ns : String) : AckAction :=
  if handlers.contains ns then .invoke ns else .rejectRequeue

/-- `server.dispatch` of the commandamqp package: malformed message ids
and unexpected exchanges are rejected without requeue; balanced and
multicast deliveries resolve the namespace from the routing key, unicast
deliveries from the `namespace` header (rejected without requeue when it
is not a string). -/
def serverDispatch (handlers : List String) (msg : Delivery) : AckAction :=
  match msg.messageID with
  | none => .rejectNoRequeue
  | some _ =>
    match msg.exchange with
    | .balanced => serverHandle handlers msg.routingKey
    | .multicast => serverHandle handlers msg.routingKey
    | .unicast =>
      match msg.namespaceHeader with
      | some ns => serverHandle handlers ns
      | none => .rejectNoRequeue
    | .other _ => .rejectNoRequeue

/-- The namespace a delivery resolves to, following `server.dispatch`:
routing key for balanced and multicast, the `namespace` header for
unicast. -/
def resolvedNamespace (msg : Delivery) : Option String :=
  match msg.exchange with
  | .balanced => some msg.routingKey
  | .multicast => some msg.routingKey
  | .unicast => msg.namespaceHeader
  | .other _ => none

def sid0 : SessionID := ⟨⟨1, 1⟩, 1⟩

/-- A catalog whose current revision is the largest `uint32` value:
reachable from `NewCatalog` by `2^32 - 1` successful updates. -/
def revWrapCatalog : Catalog :=
  { ref := ⟨sid0, 4294967295⟩, attrs := [], seq := 0, closed := false }

/-- A catalog holding a frozen attribute, used to exercise the frozen
failure paths. -/
def frozCatalog : Catalog :=
  { ref := ⟨sid0, 2⟩
    attrs := [("ns", [("k", ⟨⟨"k", "v1", true⟩, 1, 1⟩)])]
    seq := 5
    closed := false }

/-- A closed catalog whose current ref also differs from the ref passed
to `TryUpdate` below, showing the closed check takes precedence. -/
def closedCatalog : Catalog :=
  { ref := ⟨sid0, 3⟩, attrs := [], seq := 0, closed := true }

/-- A catalog whose message counter is two below the `uint32` maximum:
reachable from `NewCatalog` by `2^32 - 2` calls to `NextMessageID`. -/
def seqWrapCatalog : Catalog :=
  { ref := ⟨sid0, 0⟩, attrs := [], seq := 4294967294, closed := false }

/-- `k` successive `NextMessageID` calls. -/
def msgIter : Nat → Catalog → Catalog
  | 0, c => c
  | k + 1, c => msgIter k c.NextMessageID.1

/-- One no-op fencing update applied to the catalog's own head ref. -/
def fenceStep (c : Catalog) : Catalog := (Catalog.TryUpdate c c.ref "fence" []).1

/-- `k` successive no-op fencing updates. -/
def fenceIter : Nat → Catalog → Catalog
  | 0, c => c
  | k + 1, c => fenceIter k (fenceStep c)

/-- A unicast delivery with a well-formed message id and a namespace
header naming a namespace with no registered handler. -/
def unicastNoHandlerMsg : Delivery :=
  { messageID := some ⟨⟨sid0, 0⟩, 1⟩
    exchange := .unicast
    routingKey := ""
    namespaceHeader := some "ns1" }

/-- A remote catalog caching a frozen attribute. -/
def frozRemCatalog : RemoteCatalog :=
  { id := sid0
    highestRev := 2
    cache := [("ns", [("k", ⟨⟨⟨"k", "v1", true⟩, 1, 1⟩, 2⟩)])]
    isClosed := false }

/-- The server response used to exhibit the nil-map fault: one updated
attribute at revision 1. -/
def nilCacheRpc : List Attr → Except RinqError (Nat × List AttrMeta) :=
  fun _ => .ok (1, [⟨⟨"k", "v", false⟩, 1, 1⟩])

/-- A remote catalog whose cache already knows key "k" changed at
revision 10. -/
def staleRemCatalog : RemoteCatalog :=
  { id := sid0
    highestRev := 10
    cache := [("ns", [("k", ⟨⟨⟨"k", "v", false⟩, 3, 10⟩, 10⟩)])]
    isClosed := false }

theorem alookup_aset_self {α : Type} (t : List (String × α)) (k : String) (v : α) :
    alookup (aset t k v) k = some v := by
  induction t with
  | nil => simp [aset, alookup]
  | cons p rest ih =>
    obtain ⟨k2, w⟩ := p
    by_cases h : k2 = k
    · simp [aset, h, alookup]
    · simp [aset, h, alookup, ih]

theorem alookup_aset_ne {α : Type} (t : List (String × α)) (k k2 : String) (v : α)
    (h : k ≠ k2) : alookup (aset t k v) k2 = alookup t k2 := by
  induction t with
  | nil => simp [aset, alookup, h]
  | cons p rest ih =>
    obtain ⟨k3, w⟩ := p
    by_cases h3 : k3 = k
    · subst h3; simp [aset, alookup, h]
    · simp [aset, h3, alookup, ih]

theorem updateLoop_frozen_preserved (rev : Nat) (as : List Attr) :
    ∀ (t t2 : Table) (ch : Bool) (k : String) (m : AttrMeta),
    alookup t k = some m → m.attr.isFrozen = true →
    updateLoop rev t as = .ok (t2, ch) → alookup t2 k = some m := by
  induction as with
  | nil =>
    intro t t2 ch k m hl hf h
    simp [updateLoop] at h
    obtain ⟨rfl, rfl⟩ := h
    exact hl
  | cons a rest ih =>
    intro t t2 ch k m hl hf h
    unfold updateLoop at h
    simp only [] at h
    split at h
    · exact ih t t2 ch k m hl hf h
    · rename_i hskip
      split at h
      · exact absurd h (by simp)
      · rename_i hfroz
        split at h
        · exact absurd h (by simp)
        · rename_i t3 ch3 heq
          simp only [Except.ok.injEq, Prod.mk.injEq] at h
          obtain ⟨rfl, rfl⟩ := h
          by_cases hk : a.key = k
          · subst hk
            rw [hl] at hfroz hskip
            simp [Option.getD] at hfroz hskip
            rw [hf] at hfroz
            exact absurd hfroz (by simp)
          · have hpres := alookup_aset_ne t a.key k
              ({ attr := a,
                 createdAt := if (alookup t a.key).isSome = true then ((alookup t a.key).getD AttrMeta.zero).createdAt else rev,
                 updatedAt := rev } : AttrMeta) hk
            exact ih _ _ _ k m (hpres.trans hl) hf heq

theorem updateLoop_frozen_conflict (rev : Nat) (as : List Attr) :
    ∀ (t : Table) (k : String) (m : AttrMeta) (a : Attr),
    alookup t k = some m → m.attr.isFrozen = true →
    a ∈ as → a.key = k →
    ¬(a.value = m.attr.value ∧ a.isFrozen = m.attr.isFrozen) →
    updateLoop rev t as = .error () := by
  induction as with
  | nil => intro t k m a _ _ ha; exact absurd ha (List.not_mem_nil a)
  | cons b rest ih =>
    intro t k m a hl hf ha hk hdiff
    rcases List.mem_cons.mp ha with hb | ha2
    · subst hb
      subst hk
      unfold updateLoop
      simp only []
      rw [hl]
      simp only [Option.getD_some]
      rw [if_neg hdiff]
      simp [hf]
    · unfold updateLoop
      simp only []
      split
      · exact ih t k m a hl hf ha2 hk hdiff
      · rename_i hskip
        split
        · rfl
        · rename_i hfroz
          by_cases hbk : b.key = k
          · rw [hbk, hl] at hfroz
            simp [Option.getD, hf] at hfroz
          · have hpres := alookup_aset_ne t b.key k
              ({ attr := b,
                 createdAt := if (alookup t b.key).isSome = true then ((alookup t b.key).getD AttrMeta.zero).createdAt else rev,
                 updatedAt := rev } : AttrMeta) hbk
            rw [ih _ k m a (hpres.trans hl) hf ha2 hk hdiff]

theorem tryUpdate_closed_eq (c : Catalog) (ref : Ref) (ns : String) (attrs : List Attr)
    (h : c.closed = true) :
    Catalog.TryUpdate c ref ns attrs = (c, .error (.NotFound c.ref.id)) := by
  unfold Catalog.TryUpdate
  rw [if_pos h]

theorem tryUpdate_stale_eq (c : Catalog) (ref : Ref) (ns : String) (attrs : List Attr)
    (h1 : c.closed = false) (h2 : ref ≠ c.ref) :
    Catalog.TryUpdate c ref ns attrs = (c, .error (.StaleUpdate ref)) := by
  unfold Catalog.TryUpdate
  rw [if_neg (by simp [h1]), if_pos h2]

theorem tryUpdate_error_eq (c : Catalog) (ref : Ref) (ns : String) (attrs : List Attr)
    (c2 : Catalog) (e : RinqError)
    (h : Catalog.TryUpdate c ref ns attrs = (c2, .error e)) : c2 = c := by
  unfold Catalog.TryUpdate at h
  split at h
  · injection h with h1 h2; exact h1.symm
  · split at h
    · injection h with h1 h2; exact h1.symm
    · simp only [] at h
      split at h
      · injection h with h1 h2; exact h1.symm
      · injection h with h1 h2; exact absurd h2 (by simp)

theorem tryUpdate_ok_inv (c : Catalog) (ref : Ref) (ns : String) (attrs : List Attr)
    (c2 : Catalog) (r : Ref)
    (h : Catalog.TryUpdate c ref ns attrs = (c2, .ok r)) :
    c.closed = false ∧ ref = c.ref ∧
    ∃ t2 hch, updateLoop ((ref.rev + 1) % u32size) ((alookup c.attrs ns).getD []) attrs
        = .ok (t2, hch) ∧
      r = ⟨c.ref.id, (ref.rev + 1) % u32size⟩ ∧
      c2 = { ref := r,
             attrs := if hch then aset c.attrs ns t2 else c.attrs,
             seq := 0, closed := c.closed } := by
  unfold Catalog.TryUpdate at h
  split at h
  · exact absurd h (by simp)
  · rename_i hclosed
    split at h
    · exact absurd h (by simp)
    · rename_i hstale
      simp only [] at h
      split at h
      · exact absurd h (by simp)
      · rename_i t2 hch heq
        injection h with h1 h2
        injection h2 with h2
        refine ⟨by simpa using hclosed, by simpa using hstale, t2, hch, ?_, ?_, ?_⟩
        · exact heq
        · rw [← h2]
        · rw [← h1, ← h2]
          rfl

/-- C1 counterexample: at revision `2^32 - 1` a successful `TryUpdate`
returns revision 0 (`uint32` wrap-around), which is neither `ref.Rev + 1`
nor strictly greater than the ref passed in. -/
theorem tryUpdate_rev_wrap_counterexample :
    (Catalog.TryUpdate revWrapCatalog revWrapCatalog.ref "a" []).2
      = .ok (SessionID.At sid0 0) ∧
    (SessionID.At sid0 0).rev ≤ revWrapCatalog.ref.rev ∧
    (SessionID.At sid0 0).rev ≠ revWrapCatalog.ref.rev + 1 := by decide

/-- C1 (amended): every successful `TryUpdate` returns the revision
`(ref.rev + 1) mod 2^32` and resets the message counter `seq` to 0, even
when no attribute changed; the returned revision is strictly greater
than the ref passed in whenever the increment does not wrap `uint32`. -/
theorem tryUpdate_increments_rev (c : Catalog) (ref : Ref) (ns : String) (attrs : List Attr)
    (c2 : Catalog) (r : Ref)
    (h : Catalog.TryUpdate c ref ns attrs = (c2, .ok r)) :
    r.rev = (ref.rev + 1) % u32size ∧ c2.seq = 0 ∧
    (ref.rev + 1 < u32size → ref.rev < r.rev) := by
  obtain ⟨-, -, t2, hch, -, hr, hc2⟩ := tryUpdate_ok_inv c ref ns attrs c2 r h
  subst hr
  subst hc2
  refine ⟨rfl, rfl, fun hlt => ?_⟩
  simp only [Ref.rev]
  rw [Nat.mod_eq_of_lt hlt]
  omega

theorem tryUpdate_increments_rev_witness :
    (Ref.mk sid0 1).rev = ((SessionID.At sid0 0).rev + 1) % u32size ∧
    (Catalog.mk (Ref.mk sid0 1) [] 0 false).seq = 0 ∧
    ((SessionID.At sid0 0).rev + 1 < u32size → (SessionID.At sid0 0).rev < (Ref.mk sid0 1).rev) :=
  tryUpdate_increments_rev (NewCatalog sid0) (SessionID.At sid0 0) "ns" []
    (Catalog.mk (Ref.mk sid0 1) [] 0 false) (Ref.mk sid0 1) (by decide)

/-- C9: the local `TryUpdate` is atomic on failure: whenever it returns
an error, the catalog's ref, message counter and attribute table are
exactly as before the call (all mutation happens on the clone that is
installed only on success). -/
theorem tryUpdate_atomic_on_failure (c : Catalog) (ref : Ref) (ns : String) (attrs : List Attr)
    (c2 : Catalog) (e : RinqError)
    (h : Catalog.TryUpdate c ref ns attrs = (c2, .error e)) :
    c2.ref = c.ref ∧ c2.seq = c.seq ∧ c2.attrs = c.attrs := by
  obtain rfl := tryUpdate_error_eq c ref ns attrs c2 e h
  exact ⟨rfl, rfl, rfl⟩

theorem tryUpdate_atomic_on_failure_witness :
    frozCatalog.ref = frozCatalog.ref ∧ frozCatalog.seq = frozCatalog.seq ∧
    frozCatalog.attrs = frozCatalog.attrs :=
  tryUpdate_atomic_on_failure frozCatalog ⟨sid0, 2⟩ "ns"
    [⟨"x", "1", false⟩, ⟨"k", "v2", false⟩] frozCatalog
    (.FrozenAttributes ⟨sid0, 2⟩) (by decide)

/-- C5: `TryUpdate` fails with `NotFound` whenever the catalog is closed
(this check precedes the ref comparison), fails with `StaleUpdate`
whenever it is open and the ref differs from the current ref, and no
failure produces a new revision. -/
theorem tryUpdate_failure_cases :
    (∀ (c : Catalog) (ref : Ref) (ns : String) (attrs : List Attr),
       c.closed = true →
       Catalog.TryUpdate c ref ns attrs = (c, .error (.NotFound c.ref.id)))
  ∧ (∀ (c : Catalog) (ref : Ref) (ns : String) (attrs : List Attr),
       c.closed = false → ref ≠ c.ref →
       Catalog.TryUpdate c ref ns attrs = (c, .error (.StaleUpdate ref)))
  ∧ (∀ (c : Catalog) (ref : Ref) (ns : String) (attrs : List Attr) (c2 : Catalog) (e : RinqError),
       Catalog.TryUpdate c ref ns attrs = (c2, .error e) → c2.ref = c.ref) := by
  refine ⟨tryUpdate_closed_eq, tryUpdate_stale_eq, ?_⟩
  intro c ref ns attrs c2 e h
  obtain rfl := tryUpdate_error_eq c ref ns attrs c2 e h
  rfl

theorem tryUpdate_failure_cases_witness :
    Catalog.TryUpdate closedCatalog (SessionID.At sid0 7) "ns" []
      = (closedCatalog, .error (.NotFound closedCatalog.ref.id)) :=
  tryUpdate_failure_cases.1 closedCatalog (SessionID.At sid0 7) "ns" [] rfl

/-- C2: a frozen attribute is immutable: any successful `TryUpdate` (in
any namespace) leaves a stored frozen entry untouched, and a `TryUpdate`
whose attribute list would change a stored frozen entry (different value
or cleared frozen flag) fails with `FrozenAttributes`. -/
theorem frozen_attr_immutable :
    (∀ (c : Catalog) (ref : Ref) (ns ns2 : String) (attrs : List Attr)
       (c2 : Catalog) (r : Ref) (k : String) (m : AttrMeta),
       alookup ((alookup c.attrs ns).getD []) k = some m →
       m.attr.isFrozen = true →
       Catalog.TryUpdate c ref ns2 attrs = (c2, .ok r) →
       alookup ((alookup c2.attrs ns).getD []) k = some m)
  ∧ (∀ (c : Catalog) (ref : Ref) (ns : String) (attrs : List Attr)
       (a : Attr) (k : String) (m : AttrMeta),
       c.closed = false → ref = c.ref →
       alookup ((alookup c.attrs ns).getD []) k = some m →
       m.attr.isFrozen = true → a ∈ attrs → a.key = k →
       ¬(a.value = m.attr.value ∧ a.isFrozen = m.attr.isFrozen) →
       Catalog.TryUpdate c ref ns attrs = (c, .error (.FrozenAttributes ref))) := by
  constructor
  · intro c ref ns ns2 attrs c2 r k m hl hf h
    obtain ⟨-, -, t2, hch, heq, -, hc2⟩ := tryUpdate_ok_inv c ref ns2 attrs c2 r h
    subst hc2
    cases hch with
    | false => exact hl
    | true =>
      show alookup ((alookup (aset c.attrs ns2 t2) ns).getD []) k = some m
      by_cases hns : ns2 = ns
      · subst hns
        rw [alookup_aset_self]
        simp only [Option.getD_some]
        exact updateLoop_frozen_preserved _ attrs _ t2 true k m hl hf heq
      · rw [alookup_aset_ne c.attrs ns2 ns t2 hns]
        exact hl
  · intro c ref ns attrs a k m hclosed href hl hf ha hk hdiff
    unfold Catalog.TryUpdate
    rw [if_neg (by simp [hclosed]), if_neg (by simp [href])]
    simp only [Table.Clone]
    rw [updateLoop_frozen_conflict _ attrs _ k m a hl hf ha hk hdiff]

theorem frozen_attr_immutable_witness :
    (alookup ((alookup
        (Catalog.mk (Ref.mk sid0 3)
          [("ns", [("k", AttrMeta.mk (Attr.mk "k" "v1" true) 1 1)])] 0 false).attrs "ns").getD [])
        "k" = some (AttrMeta.mk (Attr.mk "k" "v1" true) 1 1)) ∧
    Catalog.TryUpdate frozCatalog ⟨sid0, 2⟩ "ns" [⟨"k", "v2", true⟩]
      = (frozCatalog, .error (.FrozenAttributes ⟨sid0, 2⟩)) := by
  constructor
  · exact frozen_attr_immutable.1 frozCatalog ⟨sid0, 2⟩ "ns" "ns" [⟨"k", "v1", true⟩]
      (Catalog.mk (Ref.mk sid0 3)
        [("ns", [("k", AttrMeta.mk (Attr.mk "k" "v1" true) 1 1)])] 0 false)
      (Ref.mk sid0 3) "k" (AttrMeta.mk (Attr.mk "k" "v1" true) 1 1)
      (by decide) rfl (by decide)
  · exact frozen_attr_immutable.2 frozCatalog ⟨sid0, 2⟩ "ns" [⟨"k", "v2", true⟩]
      ⟨"k", "v2", true⟩ "k" (AttrMeta.mk (Attr.mk "k" "v1" true) 1 1)
      rfl rfl (by decide) rfl (by decide) rfl (by decide)

/-- C7 counterexample: once the `uint32` message counter wraps, two
consecutive `NextMessageID` calls with no intervening update yield seqs
`2^32 - 1` and then `0`, which are not strictly increasing. -/
theorem nextMessageID_seq_wrap_counterexample :
    seqWrapCatalog.NextMessageID.2.1.seq = 4294967295 ∧
    seqWrapCatalog.NextMessageID.1.NextMessageID.2.1.seq = 0 ∧
    ¬ seqWrapCatalog.NextMessageID.2.1.seq
        < seqWrapCatalog.NextMessageID.1.NextMessageID.2.1.seq := by decide

/-- C7 (amended): two consecutive `NextMessageID` calls with no
intervening update carry the current revision unchanged and seqs
`(seq+1) mod 2^32` and `(seq+2) mod 2^32`, which are strictly increasing
and at least 1 whenever the counter does not wrap; a successful
`TryUpdate` in between resets the counter so that the next message id
has seq 1 at the incremented revision. -/
theorem nextMessageID_fencing :
    (∀ c : Catalog,
       c.NextMessageID.2.1.ref = c.ref ∧
       c.NextMessageID.1.NextMessageID.2.1.ref = c.ref ∧
       c.NextMessageID.2.1.seq = (c.seq + 1) % u32size ∧
       c.NextMessageID.1.NextMessageID.2.1.seq = (c.seq + 2) % u32size ∧
       (c.seq + 2 < u32size →
         1 ≤ c.NextMessageID.2.1.seq ∧
         c.NextMessageID.2.1.seq < c.NextMessageID.1.NextMessageID.2.1.seq))
  ∧ (∀ (c : Catalog) (ref : Ref) (ns : String) (attrs : List Attr) (c2 : Catalog) (r : Ref),
       Catalog.TryUpdate c ref ns attrs = (c2, .ok r) →
       c2.NextMessageID.2.1.seq = 1 ∧
       c2.NextMessageID.2.1.ref.rev = (ref.rev + 1) % u32size) := by
  constructor
  · intro c
    refine ⟨rfl, rfl, rfl, ?_, ?_⟩
    · show ((c.seq + 1) % u32size + 1) % u32size = (c.seq + 2) % u32size
      rw [Nat.mod_add_mod]
    · intro hlt
      simp only [u32size] at hlt
      constructor
      · show 1 ≤ (c.seq + 1) % u32size
        simp only [u32size]
        omega
      · show (c.seq + 1) % u32size < ((c.seq + 1) % u32size + 1) % u32size
        simp only [u32size]
        omega
  · intro c ref ns attrs c2 r h
    obtain ⟨-, -, t2, hch, -, hr, hc2⟩ := tryUpdate_ok_inv c ref ns attrs c2 r h
    subst hr
    subst hc2
    constructor
    · show (0 + 1) % u32size = 1
      decide
    · rfl

theorem nextMessageID_fencing_witness :
    1 ≤ (NewCatalog sid0).NextMessageID.2.1.seq ∧
    (NewCatalog sid0).NextMessageID.2.1.seq
      < (NewCatalog sid0).NextMessageID.1.NextMessageID.2.1.seq :=
  ((nextMessageID_fencing.1 (NewCatalog sid0)).2.2.2.2 (by decide))

/-- `msgIter` only advances the `uint32` message counter. -/
theorem msgIter_state (k : Nat) : ∀ c : Catalog, c.seq < u32size →
    (msgIter k c).ref = c.ref ∧ (msgIter k c).attrs = c.attrs ∧
    (msgIter k c).closed = c.closed ∧ (msgIter k c).seq = (c.seq + k) % u32size := by
  induction k with
  | zero =>
    intro c hc
    exact ⟨rfl, rfl, rfl, (Nat.mod_eq_of_lt hc).symm⟩
  | succ k ih =>
    intro c hc
    have hlt : (c.seq + 1) % u32size < u32size := Nat.mod_lt _ (by decide)
    obtain ⟨h1, h2, h3, h4⟩ := ih c.NextMessageID.1 hlt
    rw [show msgIter (k + 1) c = msgIter k c.NextMessageID.1 from rfl]
    refine ⟨h1, h2, h3, ?_⟩
    rw [h4]
    show ((c.seq + 1) % u32size + k) % u32size = (c.seq + (k + 1)) % u32size
    rw [Nat.mod_add_mod, Nat.add_assoc, Nat.add_comm 1 k]

/-- `seqWrapCatalog` is reachable: it is the state of a fresh catalog
after `2^32 - 2` message ids have been handed out. -/
theorem seqWrapCatalog_reachable :
    msgIter 4294967294 (NewCatalog sid0) = seqWrapCatalog := by
  obtain ⟨h1, h2, h3, h4⟩ := msgIter_state 4294967294 (NewCatalog sid0) (by decide)
  have h4b : (msgIter 4294967294 (NewCatalog sid0)).seq = 4294967294 := by
    rw [h4]; decide
  cases hm : msgIter 4294967294 (NewCatalog sid0) with
  | mk ref attrs seq closed =>
    rw [hm] at h1 h2 h3 h4b
    simp only at h1 h2 h3 h4b
    rw [seqWrapCatalog, h1, h2, h3, h4b]
    rfl

theorem fenceStep_eq (c : Catalog) (hc : c.closed = false) :
    fenceStep c =
      { ref := ⟨c.ref.id, (c.ref.rev + 1) % u32size⟩, attrs := c.attrs, seq := 0,
        closed := false } := by
  unfold fenceStep Catalog.TryUpdate
  rw [if_neg (by simp [hc]), if_neg (by simp)]
  simp only [updateLoop]
  rw [hc]
  rfl

/-- `fenceIter` only advances the revision (mod `2^32`) and clears the
message counter. -/
theorem fenceIter_state (k : Nat) : ∀ c : Catalog, c.closed = false → c.ref.rev < u32size →
    (fenceIter k c).ref.id = c.ref.id ∧ (fenceIter k c).attrs = c.attrs ∧
    (fenceIter k c).closed = false ∧
    (fenceIter k c).ref.rev = (c.ref.rev + k) % u32size ∧
    (fenceIter k c).seq = (if k = 0 then c.seq else 0) := by
  induction k with
  | zero =>
    intro c hc hrev
    exact ⟨rfl, rfl, hc, (Nat.mod_eq_of_lt hrev).symm, rfl⟩
  | succ k ih =>
    intro c hc hrev
    have hstep := fenceStep_eq c hc
    have hlt : (fenceStep c).ref.rev < u32size := by
      rw [hstep]; exact Nat.mod_lt _ (by decide)
    have hcl : (fenceStep c).closed = false := by rw [hstep]
    obtain ⟨h1, h2, h3, h4, h5⟩ := ih (fenceStep c) hcl hlt
    rw [show fenceIter (k + 1) c = fenceIter k (fenceStep c) from rfl]
    refine ⟨?_, ?_, h3, ?_, ?_⟩
    · rw [h1, hstep]
    · rw [h2, hstep]
    · rw [h4, hstep]
      show ((c.ref.rev + 1) % u32size + k) % u32size = (c.ref.rev + (k + 1)) % u32size
      rw [Nat.mod_add_mod, Nat.add_assoc, Nat.add_comm 1 k]
    · cases k with
      | zero =>
        rw [h5, hstep]
        rfl
      | succ k2 =>
        rw [h5]
        simp

/-- `revWrapCatalog` is reachable: it is the state of a fresh catalog
after `2^32 - 1` successful no-op updates. -/
theorem revWrapCatalog_reachable :
    fenceIter 4294967295 (NewCatalog sid0) = revWrapCatalog := by
  obtain ⟨h1, h2, h3, h4, h5⟩ := fenceIter_state 4294967295 (NewCatalog sid0) rfl (by decide)
  have h4b : (fenceIter 4294967295 (NewCatalog sid0)).ref.rev = 4294967295 := by
    rw [h4]; decide
  have h5b : (fenceIter 4294967295 (NewCatalog sid0)).seq = 0 := by
    rw [h5]; simp
  cases hm : fenceIter 4294967295 (NewCatalog sid0) with
  | mk ref attrs seq closed =>
    rw [hm] at h1 h2 h3 h4b h5b
    simp only at h1 h2 h3 h4b h5b
    cases ref with
    | mk id rev =>
      simp only at h1 h4b
      rw [revWrapCatalog, h1, h2, h3, h4b, h5b]
      rfl

/-- C8 counterexample: an empty-valued attribute whose createdAt equals
updatedAt is written by `WriteDiff` without the `+` prefix (the code
falls back to `Write` for every empty value). -/
theorem writeDiff_empty_value_counterexample :
    WriteDiff ⟨⟨"k", "", false⟩, 1, 1⟩ = "-k" ∧
    "+" ++ Write ⟨⟨"k", "", false⟩, 1, 1⟩ = "+-k" ∧
    WriteDiff ⟨⟨"k", "", false⟩, 1, 1⟩ ≠ "+" ++ Write ⟨⟨"k", "", false⟩, 1, 1⟩ := by
  decide

/-- C8 (amended): `Write` produces `key=value` for a non-frozen
non-empty attribute, `key@value` for a frozen non-empty attribute,
`!key` for a frozen empty attribute and `-key` for a non-frozen empty
attribute; `WriteDiff` prepends `+` to the textual form exactly when
createdAt equals updatedAt and the value is non-empty: a non-empty
attribute with createdAt different from updatedAt, and every
empty-valued attribute, is written exactly as `Write` writes it, with
no prefix. -/
theorem attr_repr_forms :
    (∀ a : AttrMeta, a.attr.value ≠ "" → a.attr.isFrozen = false →
       Write a = a.attr.key ++ "=" ++ a.attr.value)
  ∧ (∀ a : AttrMeta, a.attr.value ≠ "" → a.attr.isFrozen = true →
       Write a = a.attr.key ++ "@" ++ a.attr.value)
  ∧ (∀ a : AttrMeta, a.attr.value = "" → a.attr.isFrozen = true →
       Write a = "!" ++ a.attr.key)
  ∧ (∀ a : AttrMeta, a.attr.value = "" → a.attr.isFrozen = false →
       Write a = "-" ++ a.attr.key)
  ∧ (∀ a : AttrMeta, a.attr.value ≠ "" → a.createdAt = a.updatedAt →
       WriteDiff a = "+" ++ Write a)
  ∧ (∀ a : AttrMeta, a.attr.value ≠ "" → ¬ a.createdAt = a.updatedAt →
       WriteDiff a = Write a)
  ∧ (∀ a : AttrMeta, a.attr.value = "" → WriteDiff a = Write a) := by
  refine ⟨?_, ?_, ?_, ?_, ?_, ?_, ?_⟩
  · intro a hv hf
    rw [Write, if_neg hv, hf]
    rfl
  · intro a hv hf
    rw [Write, if_neg hv, hf]
    rfl
  · intro a hv hf
    rw [Write, if_pos hv, hf]
    rfl
  · intro a hv hf
    rw [Write, if_pos hv, hf]
    rfl
  · intro a hv hcu
    rw [WriteDiff, if_neg hv, if_pos hcu, Write, if_neg hv]
  · intro a hv hcu
    rw [WriteDiff, if_neg hv, if_neg hcu, Write, if_neg hv]
    exact rfl
  · intro a hv
    rw [WriteDiff, if_pos hv]

theorem attr_repr_forms_witness :
    Write ⟨⟨"k", "v", false⟩, 1, 2⟩ = "k" ++ "=" ++ "v" ∧
    WriteDiff ⟨⟨"k", "v", true⟩, 3, 3⟩ = "+" ++ Write ⟨⟨"k", "v", true⟩, 3, 3⟩ ∧
    WriteDiff ⟨⟨"k", "v", false⟩, 1, 2⟩ = Write ⟨⟨"k", "v", false⟩, 1, 2⟩ :=
  ⟨attr_repr_forms.1 ⟨⟨"k", "v", false⟩, 1, 2⟩ (by decide) rfl,
   attr_repr_forms.2.2.2.2.1 ⟨⟨"k", "v", true⟩, 3, 3⟩ (by decide) rfl,
   attr_repr_forms.2.2.2.2.2.1 ⟨⟨"k", "v", false⟩, 1, 2⟩ (by decide) (by decide)⟩

/-- C3 counterexample: the dispatch loop rejects-with-requeue every
delivery whose resolved namespace has no handler, including unicast
deliveries - the claim's "a unicast delivery with no handler is never
requeued" fails. -/
theorem unicast_no_handler_requeued_counterexample :
    serverDispatch [] unicastNoHandlerMsg = .rejectRequeue ∧
    unicastNoHandlerMsg.exchange = .unicast := ⟨rfl, rfl⟩

/-- C3 (amended): a delivery with a well-formed message id whose
resolved namespace (routing key for balanced and multicast, `namespace`
header for unicast) has no registered handler is rejected-with-requeue
regardless of the exchange it arrived on, and is handed to the handler
otherwise. -/
theorem no_handler_requeue (handlers : List String) (msg : Delivery)
    (mid : MessageID) (ns : String)
    (hmid : msg.messageID = some mid)
    (hns : resolvedNamespace msg = some ns) :
    (handlers.contains ns = false → serverDispatch handlers msg = .rejectRequeue) ∧
    (handlers.contains ns = true → serverDispatch handlers msg = .invoke ns) := by
  refine ⟨fun hc => ?_, fun hc => ?_⟩ <;>
  · cases hex : msg.exchange <;>
      simp_all [serverDispatch, resolvedNamespace, serverHandle]

theorem no_handler_requeue_witness :
    (([] : List String).contains "ns1" = false →
      serverDispatch [] unicastNoHandlerMsg = .rejectRequeue) ∧
    (([] : List String).contains "ns1" = true →
      serverDispatch [] unicastNoHandlerMsg = .invoke "ns1") :=
  no_handler_requeue [] unicastNoHandlerMsg ⟨⟨sid0, 0⟩, 1⟩ "ns1" rfl rfl

theorem filterLoop_frozen_error (cache : attrNamespaceCache) (rev : Nat) (as : List Attr) :
    ∀ (a : Attr) (entry : cachedAttr),
    a ∈ as → alookup cache a.key = some entry →
    entry.attr.attr.isFrozen = true → a ≠ entry.attr.attr →
    filterLoop cache rev as = .error () := by
  induction as with
  | nil => intro a entry ha; exact absurd ha (List.not_mem_nil a)
  | cons b rest ih =>
    intro a entry ha hl hf hne
    rcases List.mem_cons.mp ha with hb | ha2
    · subst hb
      unfold filterLoop
      simp only [hl]
      rw [if_pos hf, if_neg hne]
    · unfold filterLoop
      cases hlb : alookup cache b.key with
      | none => simp only [ih a entry ha2 hl hf hne]
      | some e2 =>
        simp only [hlb]
        by_cases hf2 : e2.attr.attr.isFrozen = true
        · rw [if_pos hf2]
          by_cases heq : b = e2.attr.attr
          · rw [if_pos heq]
            exact ih a entry ha2 hl hf hne
          · rw [if_neg heq]
        · rw [if_neg hf2]
          split
          · exact ih a entry ha2 hl hf hne
          · simp only [ih a entry ha2 hl hf hne]

theorem filterLoop_skips_frozen (cache : attrNamespaceCache) (rev : Nat) (as : List Attr) :
    ∀ (a : Attr) (entry : cachedAttr) (ua : List Attr),
    alookup cache a.key = some entry → entry.attr.attr.isFrozen = true →
    a = entry.attr.attr → filterLoop cache rev as = .ok ua → a ∉ ua := by
  induction as with
  | nil =>
    intro a entry ua hl hf heq h
    simp [filterLoop] at h
    subst h
    exact List.not_mem_nil a
  | cons b rest ih =>
    intro a entry ua hl hf heq h
    by_cases hba : b = a
    · subst hba
      unfold filterLoop at h
      simp only [hl] at h
      rw [if_pos hf, if_pos heq] at h
      exact ih b entry ua hl hf heq h
    · unfold filterLoop at h
      cases hlb : alookup cache b.key with
      | none =>
        simp only [hlb] at h
        cases hflr : filterLoop cache rev rest with
        | error e =>
          rw [hflr] at h
          simp at h
        | ok u0 =>
          rw [hflr] at h
          simp only [Except.ok.injEq] at h
          subst h
          intro hmem
          rcases List.mem_cons.mp hmem with h1 | h2
          · exact hba h1.symm
          · exact ih a entry u0 hl hf heq hflr h2
      | some e2 =>
        simp only [hlb] at h
        by_cases hf2 : e2.attr.attr.isFrozen = true
        · rw [if_pos hf2] at h
          split at h
          · exact ih a entry ua hl hf heq h
          · simp at h
        · rw [if_neg hf2] at h
          split at h
          · exact ih a entry ua hl hf heq h
          · cases hflr : filterLoop cache rev rest with
            | error e =>
              rw [hflr] at h
              simp at h
            | ok u0 =>
              rw [hflr] at h
              simp only [Except.ok.injEq] at h
              subst h
              intro hmem
              rcases List.mem_cons.mp hmem with h1 | h2
              · exact hba h1.symm
              · exact ih a entry u0 hl hf heq hflr h2

/-- C6: the remote `TryUpdate` fails with `NotFound` when the catalog is
marked closed, with `StaleUpdate` when `highestRev > rev`, and with
`FrozenAttributes` when the cache holds a frozen entry for some incoming
key whose value differs; an incoming attribute identical to a frozen
cache entry is filtered out rather than sent. -/
theorem remote_tryUpdate_errors :
    (∀ (c : RemoteCatalog) (rev : Nat) (ns : String) (attrs : List Attr)
       (rpc : List Attr → Except RinqError (Nat × List AttrMeta)),
       c.isClosed = true →
       RemoteCatalog.TryUpdate c rev ns attrs rpc = some (c, .error (.NotFound c.id)))
  ∧ (∀ (c : RemoteCatalog) (rev : Nat) (ns : String) (attrs : List Attr)
       (rpc : List Attr → Except RinqError (Nat × List AttrMeta)),
       c.isClosed = false → rev < c.highestRev →
       RemoteCatalog.TryUpdate c rev ns attrs rpc
         = some (c, .error (.StaleUpdate (c.id.At rev))))
  ∧ (∀ (c : RemoteCatalog) (rev : Nat) (ns : String) (attrs : List Attr)
       (rpc : List Attr → Except RinqError (Nat × List AttrMeta))
       (a : Attr) (entry : cachedAttr),
       c.isClosed = false → c.highestRev ≤ rev →
       a ∈ attrs → alookup ((alookup c.cache ns).getD []) a.key = some entry →
       entry.attr.attr.isFrozen = true → a.value ≠ entry.attr.attr.value →
       RemoteCatalog.TryUpdate c rev ns attrs rpc
         = some (c, .error (.FrozenAttributes (c.id.At rev))))
  ∧ (∀ (cache : attrNamespaceCache) (rev : Nat) (attrs ua : List Attr)
       (a : Attr) (entry : cachedAttr),
       alookup cache a.key = some entry → entry.attr.attr.isFrozen = true →
       a = entry.attr.attr → filterLoop cache rev attrs = .ok ua → a ∉ ua) := by
  refine ⟨?_, ?_, ?_, fun cache rev attrs ua a entry => filterLoop_skips_frozen cache rev attrs a entry ua⟩
  · intro c rev ns attrs rpc hcl
    unfold RemoteCatalog.TryUpdate
    rw [if_pos hcl]
  · intro c rev ns attrs rpc hcl hrev
    unfold RemoteCatalog.TryUpdate
    rw [if_neg (by simp [hcl]), if_pos hrev]
  · intro c rev ns attrs rpc a entry hcl hrev ha hl hf hne
    have hne2 : a ≠ entry.attr.attr := by
      intro heq
      rw [heq] at hne
      exact hne rfl
    unfold RemoteCatalog.TryUpdate
    rw [if_neg (by simp [hcl]), if_neg (by omega)]
    simp only [filterLoop_frozen_error ((alookup c.cache ns).getD []) rev attrs a entry ha hl hf hne2]

theorem remote_tryUpdate_errors_witness :
    RemoteCatalog.TryUpdate frozRemCatalog 2 "ns" [⟨"k", "v2", true⟩]
        (fun _ => .error (.NotFound sid0))
      = some (frozRemCatalog, .error (.FrozenAttributes (frozRemCatalog.id.At 2))) :=
  remote_tryUpdate_errors.2.2.1 frozRemCatalog 2 "ns" [⟨"k", "v2", true⟩]
    (fun _ => .error (.NotFound sid0)) ⟨"k", "v2", true⟩ ⟨⟨⟨"k", "v1", true⟩, 1, 1⟩, 2⟩
    rfl (by decide) (by decide) (by decide) rfl (by decide)

/-- C10: updating a namespace the remote catalog has never cached makes
the post-RPC merge loop write into the nil namespace map captured before
the RPC - a Go runtime panic (modelled as `none`) - whereas `Fetch` in
the same situation allocates a fresh namespace map and succeeds. -/
theorem remote_tryUpdate_nil_cache_fault :
    RemoteCatalog.TryUpdate (newRemoteCatalog sid0) 0 "ns1" [⟨"k", "v", false⟩] nilCacheRpc
      = none ∧
    (RemoteCatalog.Fetch (newRemoteCatalog sid0) 1 "ns1" ["k"] (fun _ => nilCacheRpc [])).2
      = .ok [⟨"k", "v", false⟩] := by
  exact ⟨rfl, rfl⟩

theorem fetchLocalLoop_sound (cache : attrNamespaceCache) (rev : Nat) (keys : List String) :
    ∀ (s : List Attr) (u : List String),
    fetchLocalLoop cache rev keys = .ok (s, u) →
    ∀ a ∈ s, ∃ k entry, k ∈ keys ∧ alookup cache k = some entry ∧
      entry.attr.attr = a ∧ entry.attr.updatedAt ≤ rev := by
  induction keys with
  | nil =>
    intro s u h a ha
    simp [fetchLocalLoop] at h
    obtain ⟨rfl, rfl⟩ := h
    exact absurd ha (List.not_mem_nil a)
  | cons key rest ih =>
    intro s u h a ha
    unfold fetchLocalLoop at h
    cases hlk : alookup cache key with
    | none =>
      simp only [hlk] at h
      cases hrec : fetchLocalLoop cache rev rest with
      | error e => rw [hrec] at h; simp at h
      | ok p =>
        obtain ⟨s0, u0⟩ := p
        rw [hrec] at h
        simp only [Except.ok.injEq, Prod.mk.injEq] at h
        obtain ⟨rfl, rfl⟩ := h
        obtain ⟨k, entry, hk, h2, h3, h4⟩ := ih s0 u0 hrec a ha
        exact ⟨k, entry, List.mem_cons_of_mem key hk, h2, h3, h4⟩
    | some entry =>
      simp only [hlk] at h
      split at h
      · obtain ⟨k, e2, hk, h2, h3, h4⟩ := ih s u h a ha
        exact ⟨k, e2, List.mem_cons_of_mem key hk, h2, h3, h4⟩
      · split at h
        · simp at h
        · rename_i hcre hupd
          split at h
          · rename_i hsolv
            cases hrec : fetchLocalLoop cache rev rest with
            | error e => rw [hrec] at h; simp at h
            | ok p =>
              obtain ⟨s0, u0⟩ := p
              rw [hrec] at h
              simp only [Except.ok.injEq, Prod.mk.injEq] at h
              obtain ⟨rfl, rfl⟩ := h
              rcases List.mem_cons.mp ha with h1 | h2
              · refine ⟨key, entry, List.mem_cons_self key rest, hlk, h1.symm, ?_⟩
                omega
              · obtain ⟨k, e2, hk, hb2, hb3, hb4⟩ := ih s0 u0 hrec a h2
                exact ⟨k, e2, List.mem_cons_of_mem key hk, hb2, hb3, hb4⟩
          · cases hrec : fetchLocalLoop cache rev rest with
            | error e => rw [hrec] at h; simp at h
            | ok p =>
              obtain ⟨s0, u0⟩ := p
              rw [hrec] at h
              simp only [Except.ok.injEq, Prod.mk.injEq] at h
              obtain ⟨rfl, rfl⟩ := h
              obtain ⟨k, e2, hk, hb2, hb3, hb4⟩ := ih s0 u0 hrec a ha
              exact ⟨k, e2, List.mem_cons_of_mem key hk, hb2, hb3, hb4⟩

theorem fetchLocalLoop_stale (cache : attrNamespaceCache) (rev : Nat) (keys : List String) :
    ∀ (k : String) (entry : cachedAttr),
    k ∈ keys → alookup cache k = some entry →
    entry.attr.createdAt ≤ rev → rev < entry.attr.updatedAt →
    fetchLocalLoop cache rev keys = .error () := by
  induction keys with
  | nil => intro k entry hk; exact absurd hk (List.not_mem_nil k)
  | cons key rest ih =>
    intro k entry hk hl hcre hupd
    rcases List.mem_cons.mp hk with h1 | h2
    · subst h1
      unfold fetchLocalLoop
      simp only [hl]
      rw [if_neg (by omega), if_pos (by omega)]
    · unfold fetchLocalLoop
      cases hlk : alookup cache key with
      | none => simp only [ih k entry h2 hl hcre hupd]
      | some e2 =>
        simp only [hlk]
        split
        · exact ih k entry h2 hl hcre hupd
        · split
          · rfl
          · split
            · simp only [ih k entry h2 hl hcre hupd]
            · simp only [ih k entry h2 hl hcre hupd]

theorem fetchLocalLoop_omits (cache : attrNamespaceCache) (rev : Nat) (keys : List String) :
    ∀ (k : String) (entry : cachedAttr) (s : List Attr) (u : List String),
    alookup cache k = some entry → rev < entry.attr.createdAt →
    fetchLocalLoop cache rev keys = .ok (s, u) → k ∉ u := by
  induction keys with
  | nil =>
    intro k entry s u hl hcre h
    simp [fetchLocalLoop] at h
    obtain ⟨rfl, rfl⟩ := h
    exact List.not_mem_nil k
  | cons key rest ih =>
    intro k entry s u hl hcre h
    by_cases hkk : key = k
    · subst hkk
      unfold fetchLocalLoop at h
      simp only [hl] at h
      rw [if_pos (by omega)] at h
      exact ih key entry s u hl hcre h
    · unfold fetchLocalLoop at h
      cases hlk : alookup cache key with
      | none =>
        simp only [hlk] at h
        cases hrec : fetchLocalLoop cache rev rest with
        | error e => rw [hrec] at h; simp at h
        | ok p =>
          obtain ⟨s0, u0⟩ := p
          rw [hrec] at h
          simp only [Except.ok.injEq, Prod.mk.injEq] at h
          obtain ⟨rfl, rfl⟩ := h
          intro hmem
          rcases List.mem_cons.mp hmem with h1 | h2
          · exact hkk h1.symm
          · exact ih k entry s0 u0 hl hcre hrec h2
      | some e2 =>
        simp only [hlk] at h
        split at h
        · exact ih k entry s u hl hcre h
        · split at h
          · simp at h
          · split at h
            · cases hrec : fetchLocalLoop cache rev rest with
              | error e => rw [hrec] at h; simp at h
              | ok p =>
                obtain ⟨s0, u0⟩ := p
                rw [hrec] at h
                simp only [Except.ok.injEq, Prod.mk.injEq] at h
                obtain ⟨rfl, rfl⟩ := h
                exact ih k entry s0 u0 hl hcre hrec
            · cases hrec : fetchLocalLoop cache rev rest with
              | error e => rw [hrec] at h; simp at h
              | ok p =>
                obtain ⟨s0, u0⟩ := p
                rw [hrec] at h
                simp only [Except.ok.injEq, Prod.mk.injEq] at h
                obtain ⟨rfl, rfl⟩ := h
                intro hmem
                rcases List.mem_cons.mp hmem with h1 | h2
                · exact hkk h1.symm
                · exact ih k entry s0 u0 hl hcre hrec h2

theorem mergeLoop_sound (rev frev : Nat) (metas : List AttrMeta) :
    ∀ (cache cache2 : Option attrNamespaceCache) (st st2 : Bool)
      (solved solved2 : List Attr),
    mergeLoop rev frev metas cache st solved = (cache2, st2, solved2) →
    ∀ a ∈ solved2, a ∈ solved ∨ ∃ m, m ∈ metas ∧ m.attr = a ∧ m.updatedAt ≤ rev := by
  induction metas with
  | nil =>
    intro cache cache2 st st2 solved solved2 h a ha
    simp [mergeLoop] at h
    obtain ⟨-, -, rfl⟩ := h
    exact Or.inl ha
  | cons m rest ih =>
    intro cache cache2 st st2 solved solved2 h a ha
    unfold mergeLoop at h
    have lift : (a ∈ solved ∨ ∃ m2, m2 ∈ rest ∧ m2.attr = a ∧ m2.updatedAt ≤ rev) →
        a ∈ solved ∨ ∃ m2, m2 ∈ m :: rest ∧ m2.attr = a ∧ m2.updatedAt ≤ rev := by
      rintro (h1 | ⟨m2, hm2, hb, hc⟩)
      · exact Or.inl h1
      · exact Or.inr ⟨m2, List.mem_cons_of_mem m hm2, hb, hc⟩
    split at h
    · exact lift (ih _ cache2 _ st2 solved solved2 h a ha)
    · split at h
      · exact lift (ih _ cache2 _ st2 solved solved2 h a ha)
      · split at h
        · exact lift (ih _ cache2 _ st2 solved solved2 h a ha)
        · rename_i hcre hupd
          have := ih _ cache2 _ st2 (solved ++ [m.attr]) solved2 h a ha
          rcases this with h1 | ⟨m2, hm2, hb, hc⟩
          · rcases List.mem_append.mp h1 with h2 | h3
            · exact Or.inl h2
            · simp only [List.mem_singleton] at h3
              refine Or.inr ⟨m, List.mem_cons_self m rest, h3.symm, ?_⟩
              omega
          · exact Or.inr ⟨m2, List.mem_cons_of_mem m hm2, hb, hc⟩

theorem fetchLocal_ok_inv (c : RemoteCatalog) (rev : Nat) (ns : String) (keys : List String)
    (s : List Attr) (u : List String)
    (h : RemoteCatalog.fetchLocal c rev ns keys = .ok (s, u)) :
    fetchLocalLoop ((alookup c.cache ns).getD []) rev keys = .ok (s, u) := by
  unfold RemoteCatalog.fetchLocal at h
  simp only [] at h
  cases hloop : fetchLocalLoop ((alookup c.cache ns).getD []) rev keys with
  | error e => rw [hloop] at h; simp at h
  | ok p =>
    obtain ⟨s0, u0⟩ := p
    rw [hloop] at h
    simp only [] at h
    split at h
    · simp at h
    · simp only [Except.ok.injEq, Prod.mk.injEq] at h
      obtain ⟨rfl, rfl⟩ := h
      rfl

theorem updateState_none_cache (c : RemoteCatalog) (rev : Nat) :
    (RemoteCatalog.updateState c rev none).cache = c.cache ∧
    (RemoteCatalog.updateState c rev none).id = c.id := by
  unfold RemoteCatalog.updateState
  split
  · split <;> exact ⟨rfl, rfl⟩
  · split <;> exact ⟨rfl, rfl⟩

/-- C4: `Fetch` never returns an attribute whose `updatedAt` exceeds the
requested revision (every returned attribute is the value of a cache
entry or of a server-returned attribute with `updatedAt ≤ rev`); a cache
entry for a requested key that existed at `rev` (`createdAt ≤ rev`) but
changed after it (`updatedAt > rev`) makes `Fetch` return `StaleFetch`
immediately, with unchanged state and for every possible remote answer;
and a cache entry created after `rev` solves its key as empty: the key
is not forwarded to the remote peer. -/
theorem fetch_no_stale_attrs :
    (∀ (c : RemoteCatalog) (rev : Nat) (ns : String) (keys : List String)
       (rpc : List String → Except RinqError (Nat × List AttrMeta))
       (c2 : RemoteCatalog) (res : List Attr),
       RemoteCatalog.Fetch c rev ns keys rpc = (c2, .ok res) →
       ∀ a ∈ res,
         (∃ k entry, k ∈ keys ∧ alookup ((alookup c.cache ns).getD []) k = some entry ∧
            entry.attr.attr = a ∧ entry.attr.updatedAt ≤ rev) ∨
         (∃ us frev fattrs, rpc us = .ok (frev, fattrs) ∧
            ∃ m, m ∈ fattrs ∧ m.attr = a ∧ m.updatedAt ≤ rev))
  ∧ (∀ (c : RemoteCatalog) (rev : Nat) (ns : String) (keys : List String)
       (k : String) (entry : cachedAttr)
       (rpc : List String → Except RinqError (Nat × List AttrMeta)),
       k ∈ keys → alookup ((alookup c.cache ns).getD []) k = some entry →
       entry.attr.createdAt ≤ rev → rev < entry.attr.updatedAt →
       RemoteCatalog.Fetch c rev ns keys rpc = (c, .error (.StaleFetch (c.id.At rev))))
  ∧ (∀ (c : RemoteCatalog) (rev : Nat) (ns : String) (keys : List String)
       (k : String) (entry : cachedAttr) (s : List Attr) (u : List String),
       alookup ((alookup c.cache ns).getD []) k = some entry →
       rev < entry.attr.createdAt →
       RemoteCatalog.fetchLocal c rev ns keys = .ok (s, u) → k ∉ u) := by
  refine ⟨?_, ?_, ?_⟩
  · intro c rev ns keys rpc c2 res h a ha
    unfold RemoteCatalog.Fetch at h
    cases hfl : c.fetchLocal rev ns keys with
    | error e => rw [hfl] at h; simp at h
    | ok p =>
      obtain ⟨s0, u0⟩ := p
      rw [hfl] at h
      simp only [] at h
      have hloop := fetchLocal_ok_inv c rev ns keys s0 u0 hfl
      by_cases hu : u0.length = 0
      · rw [if_pos hu] at h
        simp only [Prod.mk.injEq, Except.ok.injEq] at h
        obtain ⟨-, rfl⟩ := h
        obtain ⟨k, entry, h1, h2, h3, h4⟩ := fetchLocalLoop_sound _ rev keys s0 u0 hloop a ha
        exact Or.inl ⟨k, entry, h1, h2, h3, h4⟩
      · rw [if_neg hu] at h
        cases hrpc : rpc u0 with
        | error e => rw [hrpc] at h; simp at h
        | ok q =>
          obtain ⟨frev, fattrs⟩ := q
          rw [hrpc] at h
          simp only [] at h
          by_cases hfa : fattrs.length = 0
          · rw [if_pos hfa] at h
            simp only [Prod.mk.injEq, Except.ok.injEq] at h
            obtain ⟨-, rfl⟩ := h
            obtain ⟨k, entry, h1, h2, h3, h4⟩ := fetchLocalLoop_sound _ rev keys s0 u0 hloop a ha
            exact Or.inl ⟨k, entry, h1, h2, h3, h4⟩
          · rw [if_neg hfa] at h
            cases hm : mergeLoop rev frev fattrs
                (alookup (c.updateState frev none).cache ns) false s0 with
            | mk cache q2 =>
              obtain ⟨isStale, solved⟩ := q2
              rw [hm] at h
              simp only [] at h
              cases isStale with
              | true =>
                rw [if_pos rfl] at h
                simp at h
              | false =>
                rw [if_neg (by simp)] at h
                simp only [Prod.mk.injEq, Except.ok.injEq] at h
                obtain ⟨-, hres⟩ := h
                subst hres
                have hcc := (updateState_none_cache c frev).1
                rw [hcc] at hm
                have hms := mergeLoop_sound rev frev fattrs (alookup c.cache ns) cache
                  false false s0 solved hm a ha
                rcases hms with h1 | ⟨m, hm1, hm2, hm3⟩
                · obtain ⟨k, entry, hb1, hb2, hb3, hb4⟩ :=
                    fetchLocalLoop_sound _ rev keys s0 u0 hloop a h1
                  exact Or.inl ⟨k, entry, hb1, hb2, hb3, hb4⟩
                · exact Or.inr ⟨u0, frev, fattrs, hrpc, m, hm1, hm2, hm3⟩
  · intro c rev ns keys k entry rpc hk hl hcre hupd
    have hloop := fetchLocalLoop_stale ((alookup c.cache ns).getD []) rev keys k entry hk hl hcre hupd
    have hfl : c.fetchLocal rev ns keys = .error (.StaleFetch (c.id.At rev)) := by
      unfold RemoteCatalog.fetchLocal
      simp only [hloop]
    unfold RemoteCatalog.Fetch
    simp only [hfl]
  · intro c rev ns keys k entry s u hl hcre hfl
    exact fetchLocalLoop_omits ((alookup c.cache ns).getD []) rev keys k entry s u hl hcre
      (fetchLocal_ok_inv c rev ns keys s u hfl)

theorem fetch_no_stale_attrs_witness :
    RemoteCatalog.Fetch staleRemCatalog 5 "ns" ["k"] (fun _ => .error (.NotFound sid0))
      = (staleRemCatalog, .error (.StaleFetch (staleRemCatalog.id.At 5))) :=
  fetch_no_stale_attrs.2.1 staleRemCatalog 5 "ns" ["k"] "k" ⟨⟨⟨"k", "v", false⟩, 3, 10⟩, 10⟩
    (fun _ => .error (.NotFound sid0)) (by decide) (by decide) (by decide) (by decide)
